import Mathlib

/-!
Verification of the USB HID descriptor assembler of `Zhele/include/common/usb/hid.h`
(the `HidImpl` template and the pieces of `HidInterface` that use it).

Modelling conventions: a report is its list of raw bytes (`HidReport::Data`), so a
report list is a `List (List Nat)`.  `uint16_t` casts become `% 65536`, `uint8_t`
stores become `% 256`.  C++ fold expressions over a parameter pack become folds over
the list.  The unary fold `(static_cast<uint16_t>(sizeof(_Reports::Data)) + ...)` in
`ReportsSize` is ill-formed for an empty pack (C++17 only allows empty unary folds for
`&&`, `||` and `,`), so `ReportsSize` — and `FillReports`, whose body calls it — is
modelled as returning `none` on the empty report list.
-/

namespace Zhele.Usb

/-- `HidImpl::ReportsSize`: the unary fold
`(static_cast<uint16_t>(sizeof(_Reports::Data)) + ...)` returned as `uint16_t`.
Each report length is cast to `uint16_t` before the sum, and the sum is truncated to
`uint16_t` on return.  The empty fold is ill-formed, hence `none` for `[]`. -/
def ReportsSize (reports : List (List Nat)) : Option Nat :=
  match reports with
  | [] => none
  | _ => some ((reports.map (fun r => r.length % 65536)).sum % 65536)

/-- One iteration of the fold in `HidImpl::FillReportsDescriptors`: the three bytes
written for one report — `0x22`, then the low and high byte of the report length cast
to `uint16_t` (`u16len & 0xff` and `(u16len >> 8) & 0xff`). -/
def subDescriptorEntry (r : List Nat) : List Nat :=
  [0x22, (r.length % 65536) % 256, ((r.length % 65536) / 256) % 256]

/-- `HidImpl::FillReportsDescriptors`: writes the three-byte entry of every report in
pack order at the advancing cursor and returns `3 * sizeof...(_Reports)` converted to
`uint16_t`.  First component: the bytes written; second: the returned value. -/
def FillReportsDescriptors (reports : List (List Nat)) : List Nat × Nat :=
  ((reports.map subDescriptorEntry).flatten, (3 * reports.length) % 65536)

/-- `HidImpl::FillReports`: `memcpy`s every report's raw bytes in pack order at the
advancing cursor, then returns `ReportsSize()`.  Because the body calls
`ReportsSize()`, the function is ill-formed for an empty pack: `none` on `[]`.
First component: the bytes written; second: the returned value. -/
def FillReports (reports : List (List Nat)) : Option (List Nat × Nat) :=
  (ReportsSize reports).map (fun s => (reports.flatten, s))

/-- The six bytes of the `HidImpl` struct as laid out in memory on the little-endian
target (offsets 0..5, no padding): `Length = 0x06 + 3*sizeof...(_Reports)` stored in a
`uint8_t`, `DescriptorType = 0x21`, `Version` little-endian, `CountryCode = 0`,
`ReportsCount = sizeof...(_Reports)` stored in a `uint8_t`. -/
def hidHeaderBytes (version : Nat) (n : Nat) : List Nat :=
  [(6 + 3 * n) % 256, 0x21, version % 256, (version / 256) % 256, 0x00, n % 256]

/-- The spec's `FillHidDescriptor`: the byte image of `*hidDescriptor = _HidImpl {}`
followed by `_HidImpl::FillReportsDescriptors`, as performed by
`HidInterface::FillDescriptor`; the returned count is
`sizeof(_HidImpl) + bytesWritten` accumulated in a `uint16_t`. -/
def FillHidDescriptor (reports : List (List Nat)) (version : Nat) : List Nat × Nat :=
  (hidHeaderBytes version reports.length ++ (FillReportsDescriptors reports).1,
   (6 + (FillReportsDescriptors reports).2) % 65536)

/-- Decode the little-endian 16-bit length fields back out of the byte stream written
by `FillReportsDescriptors`: every three bytes `type, lo, hi` contribute
`lo + 256 * hi`. -/
def decodeSubDescriptorLengths (bytes : List Nat) : List Nat :=
  match bytes with
  | _ :: lo :: hi :: rest => (lo + 256 * hi) :: decodeSubDescriptorLengths rest
  | _ => []

/-- Reindex `xs` by the index list `p`: element `i` of the result is `xs[p[i]]`.
When `p` is a permutation of `List.range xs.length` this applies that permutation
to `xs`. -/
def permuteBy {α : Type} (p : List Nat) (xs : List α) : List α :=
  p.filterMap (fun i => xs[i]?)

/-- The setup packet fields `HidInterface::SetupHandler` reads from `_Ep0::RxBuffer`. -/
structure SetupPacket where
  Request : Nat
  Value : Nat
  Length : Nat

/-- Modelled from the spec: `StandartRequestCode::GetDescriptor` is declared in
`interface.h`, which is not among the sources; the numeric value is the USB standard
GET_DESCRIPTOR request code. -/
def GetDescriptorRequest : Nat := 6

/-- Modelled from the spec: `GetDescriptorParameter::HidReportDescriptor` is declared
in `interface.h`, which is not among the sources; the numeric value is the USB wValue
for a HID report descriptor (descriptor type `0x22` in the high byte). -/
def HidReportDescriptorValue : Nat := 0x2200

/-- `HidInterface::SetupHandler`, with `_Ep0::SendData(buf, n)` modelled from the
spec as transmitting the first `n` bytes of `buf` (the transport lives in
`interface.h`, not among the sources).  On a GetDescriptor/HidReportDescriptor packet
the handler fills `uint8_t temp[ReportsSize()]` via `FillReports` and sends
`setup->Length < size ? setup->Length : size` bytes of it; on any other packet it
transmits nothing.  `none` marks the ill-formed empty-pack case. -/
def SetupHandler (reports : List (List Nat)) (setup : SetupPacket) :
    Option (List Nat) :=
  if setup.Request = GetDescriptorRequest ∧ setup.Value = HidReportDescriptorValue then
    (FillReports reports).map
      (fun pr => pr.1.take (if setup.Length < pr.2 then setup.Length else pr.2))
  else
    some []

/-! Helper lemmas shared by several claims. -/

lemma reportsSize_cons (r : List Nat) (rs : List (List Nat)) :
    ReportsSize (r :: rs)
      = some ((((r :: rs).map (fun x => x.length % 65536)).sum) % 65536) := rfl

lemma reportsSize_eq_sum_mod (reports : List (List Nat)) (h : reports ≠ []) :
    ReportsSize reports = some ((reports.map List.length).sum % 65536) := by
  cases reports with
  | nil => exact absurd rfl h
  | cons r rs =>
    rw [reportsSize_cons, List.sum_nat_mod ((r :: rs).map List.length) 65536,
      List.map_map]
    rfl

lemma entries_flatten_length (reports : List (List Nat)) :
    ((reports.map subDescriptorEntry).flatten).length = 3 * reports.length := by
  induction reports with
  | nil => rfl
  | cons r rs ih =>
    simp only [List.map_cons, List.flatten_cons, List.length_append, ih,
      List.length_cons, subDescriptorEntry]
    simp only [List.length_cons, List.length_nil]
    omega

/-- C10: for every non-empty report list, `ReportsSize` returns the sum of the report
byte lengths reduced modulo 2^16: totals above 65535 wrap around silently. -/
theorem reportsSize_mod_u16 (reports : List (List Nat)) (h : reports ≠ []) :
    ReportsSize reports = some ((reports.map List.length).sum % 65536) :=
  reportsSize_eq_sum_mod reports h

theorem reportsSize_mod_u16_witness :
    ([[7, 7]] : List (List Nat)) ≠ []
    ∧ ReportsSize [[7, 7]]
        = some ((([[7, 7]] : List (List Nat)).map List.length).sum % 65536) :=
  ⟨by decide, reportsSize_mod_u16 [[7, 7]] (by decide)⟩

lemma sum_two_replicates (a b : Nat) (x y : Nat) :
    (([List.replicate a x, List.replicate b y] : List (List Nat)).map
      List.length).sum = a + b := by
  rw [List.map_cons, List.map_cons, List.map_nil, List.length_replicate,
    List.length_replicate, List.sum_cons, List.sum_cons, List.sum_nil]
  omega

lemma sum_two_rep_40000_gt : 65535 < (([List.replicate 40000 0,
    List.replicate 40000 0] : List (List Nat)).map List.length).sum := by
  rw [sum_two_replicates]
  norm_num

/-- C1 counterexample: on two reports of 40000 bytes each the total is 80000 > 65535,
yet `ReportsSize` does not fail — it silently returns the truncated value 14464. -/
theorem reportsSize_overflow_cex :
    ReportsSize [List.replicate 40000 0, List.replicate 40000 0] = some 14464
    ∧ (([List.replicate 40000 0, List.replicate 40000 0] : List (List Nat)).map
        List.length).sum = 80000
    ∧ (14464 : Nat) ≠ 80000 := by
  refine ⟨?_, sum_two_replicates 40000 40000 0 0, by decide⟩
  exact (reportsSize_eq_sum_mod _ (List.cons_ne_nil _ _)).trans
    (by rw [sum_two_replicates])

/-- C1 amended: `ReportsSize` returns the sum of the report byte lengths reduced
modulo 2^16; when the true sum exceeds 65535 it does not fail with any error — it
silently returns a strictly smaller, wrapped value. -/
theorem reportsSize_overflow_no_error (reports : List (List Nat))
    (h : reports ≠ []) (hover : 65535 < (reports.map List.length).sum) :
    ReportsSize reports = some ((reports.map List.length).sum % 65536)
    ∧ (reports.map List.length).sum % 65536 < (reports.map List.length).sum := by
  refine ⟨reportsSize_eq_sum_mod reports h, ?_⟩
  have := Nat.mod_lt ((reports.map List.length).sum) (y := 65536) (by omega)
  omega

theorem reportsSize_overflow_no_error_witness :
    ReportsSize [List.replicate 40000 0, List.replicate 40000 0]
      = some ((([List.replicate 40000 0, List.replicate 40000 0] :
          List (List Nat)).map List.length).sum % 65536)
    ∧ (([List.replicate 40000 0, List.replicate 40000 0] :
          List (List Nat)).map List.length).sum % 65536
      < (([List.replicate 40000 0, List.replicate 40000 0] :
          List (List Nat)).map List.length).sum :=
  reportsSize_overflow_no_error _ (List.cons_ne_nil _ _) sum_two_rep_40000_gt

set_option maxRecDepth 20000 in
/-- C2 counterexample: with 84 one-byte reports the total blob size is 84 ≤ 65535,
the descriptor totals 6 + 3*84 = 258 bytes, but the `bLength` byte is stored in a
`uint8_t` and wraps to 258 % 256 = 2, so it does not equal the total. -/
theorem fillHidDescriptor_blength_wrap_cex :
    (FillHidDescriptor (List.replicate 84 [0]) 0x0200).1.head? = some 2
    ∧ (FillHidDescriptor (List.replicate 84 [0]) 0x0200).1.length = 258
    ∧ ((List.replicate 84 ([0] : List Nat)).map List.length).sum = 84
    ∧ (2 : Nat) ≠ 258 := by
  refine ⟨by decide, by decide, by decide, by decide⟩

/-- C2 amended: for every report list of N reports with N ≤ 83 (so that `6 + 3*N`
fits the `uint8_t` `bLength` field; for larger N that byte wraps modulo 256), total
blob size at most 65535, and every 16-bit version, `FillHidDescriptor` writes exactly
`6 + 3*N` bytes — the 6-byte header `bLength = 6+3*N`, `bDescriptorType = 0x21`,
version little-endian, `bCountryCode = 0`, `bNumDescriptors = N`, then the
sub-descriptor entries — returns `6 + 3*N`, and the `bLength` byte equals that
total. -/
theorem fillHidDescriptor_header_correct (reports : List (List Nat)) (version : Nat)
    (hN : reports.length ≤ 83) (hv : version < 65536)
    (_hblob : (reports.map List.length).sum ≤ 65535) :
    (FillHidDescriptor reports version).1
      = (6 + 3 * reports.length) :: 0x21 :: (version % 256) :: (version / 256)
          :: 0x00 :: reports.length :: (reports.map subDescriptorEntry).flatten
    ∧ (FillHidDescriptor reports version).1.length = 6 + 3 * reports.length
    ∧ (FillHidDescriptor reports version).2 = 6 + 3 * reports.length
    ∧ (FillHidDescriptor reports version).1.head? = some (6 + 3 * reports.length) := by
  have h1 : (6 + 3 * reports.length) % 256 = 6 + 3 * reports.length := by omega
  have h2 : reports.length % 256 = reports.length := by omega
  have h3 : (version / 256) % 256 = version / 256 := by omega
  refine ⟨?_, ?_, ?_, ?_⟩
  · show hidHeaderBytes version reports.length
        ++ (reports.map subDescriptorEntry).flatten = _
    rw [hidHeaderBytes, h1, h2, h3]
    rfl
  · show (hidHeaderBytes version reports.length
        ++ (reports.map subDescriptorEntry).flatten).length = _
    rw [List.length_append, entries_flatten_length]
    rfl
  · show (6 + 3 * reports.length % 65536) % 65536 = _
    omega
  · show (hidHeaderBytes version reports.length
        ++ (reports.map subDescriptorEntry).flatten).head? = _
    rw [hidHeaderBytes, h1]
    rfl

theorem fillHidDescriptor_header_correct_witness :
    (([[1], [2]] : List (List Nat)).length ≤ 83 ∧ (0x0200 : Nat) < 65536
      ∧ (([[1], [2]] : List (List Nat)).map List.length).sum ≤ 65535)
    ∧ ((FillHidDescriptor [[1], [2]] 0x0200).1
      = (6 + 3 * ([[1], [2]] : List (List Nat)).length) :: 0x21 :: (0x0200 % 256)
          :: (0x0200 / 256) :: 0x00 :: ([[1], [2]] : List (List Nat)).length
          :: (([[1], [2]] : List (List Nat)).map subDescriptorEntry).flatten
    ∧ (FillHidDescriptor [[1], [2]] 0x0200).1.length
      = 6 + 3 * ([[1], [2]] : List (List Nat)).length
    ∧ (FillHidDescriptor [[1], [2]] 0x0200).2
      = 6 + 3 * ([[1], [2]] : List (List Nat)).length
    ∧ (FillHidDescriptor [[1], [2]] 0x0200).1.head?
      = some (6 + 3 * ([[1], [2]] : List (List Nat)).length)) :=
  ⟨⟨by decide, by decide, by decide⟩,
    fillHidDescriptor_header_correct [[1], [2]] 0x0200 (by decide) (by decide)
      (by decide)⟩

lemma entries_segment (reports : List (List Nat)) (i : Nat) (h : i < reports.length) :
    (((reports.map subDescriptorEntry).flatten).drop (3 * i)).take 3
      = subDescriptorEntry (reports.get ⟨i, h⟩) := by
  induction reports generalizing i with
  | nil => exact absurd h (by simp)
  | cons r rs ih =>
    cases i with
    | zero =>
      show ((subDescriptorEntry r ++ (rs.map subDescriptorEntry).flatten).drop
          (3 * 0)).take 3 = subDescriptorEntry r
      rw [Nat.mul_zero, List.drop_zero]
      have h3 : (3 : Nat) = (subDescriptorEntry r).length + 0 := rfl
      rw [h3, List.take_append, List.take_zero, List.append_nil]
    | succ n =>
      have hn : n < rs.length := by
        have := h
        simp only [List.length_cons] at this
        omega
      have h3 : 3 * (n + 1) = (subDescriptorEntry r).length + 3 * n := by
        show 3 * (n + 1) = 3 + 3 * n
        ring
      show (((subDescriptorEntry r
          ++ (rs.map subDescriptorEntry).flatten).drop (3 * (n + 1))).take 3) = _
      rw [h3, List.drop_append]
      exact ih n hn

/-- C3 counterexample: with 21846 reports the function writes 3 * 21846 = 65538
bytes of sub-descriptors, but its `uint16_t` return value wraps to
65538 % 65536 = 2, so it does not return 3 times the number of reports. -/
theorem fillReportsDescriptors_return_wrap_cex :
    (FillReportsDescriptors (List.replicate 21846 ([] : List Nat))).2 = 2
    ∧ 3 * (List.replicate 21846 ([] : List Nat)).length = 65538
    ∧ (2 : Nat) ≠ 65538 := by
  have hsnd : ∀ reports : List (List Nat),
      (FillReportsDescriptors reports).2 = (3 * reports.length) % 65536 :=
    fun _ => rfl
  refine ⟨?_, ?_, by decide⟩
  · rw [hsnd, List.length_replicate]
  · rw [List.length_replicate]

/-- C3 amended: for every report list, `FillReportsDescriptors` writes, for each
report in list order, exactly 3 bytes at the advancing cursor (offset `3*i` for the
i-th report) — the constant `0x22` followed by the report's byte length cast to
`uint16_t`, little-endian — and it writes `3*N` bytes in total; its `uint16_t`
return value is `3*N` reduced modulo 2^16 (equal to `3*N` only when that fits in
16 bits). -/
theorem fillReportsDescriptors_entries_correct (reports : List (List Nat)) (i : Nat)
    (h : i < reports.length) :
    (((FillReportsDescriptors reports).1).drop (3 * i)).take 3
      = [0x22, (reports.get ⟨i, h⟩).length % 65536 % 256,
         (reports.get ⟨i, h⟩).length % 65536 / 256 % 256]
    ∧ (FillReportsDescriptors reports).1.length = 3 * reports.length
    ∧ (FillReportsDescriptors reports).2 = 3 * reports.length % 65536 :=
  ⟨entries_segment reports i h, entries_flatten_length reports, rfl⟩

theorem fillReportsDescriptors_entries_correct_witness :
    (0 < ([[9]] : List (List Nat)).length)
    ∧ ((((FillReportsDescriptors [[9]]).1).drop (3 * 0)).take 3
      = [0x22, (([[9]] : List (List Nat)).get ⟨0, by decide⟩).length % 65536 % 256,
         (([[9]] : List (List Nat)).get ⟨0, by decide⟩).length % 65536 / 256 % 256]
    ∧ (FillReportsDescriptors [[9]]).1.length = 3 * ([[9]] : List (List Nat)).length
    ∧ (FillReportsDescriptors [[9]]).2
      = 3 * ([[9]] : List (List Nat)).length % 65536) :=
  ⟨by decide, fillReportsDescriptors_entries_correct [[9]] 0 (by decide)⟩

lemma fillReports_eq (reports : List (List Nat)) (h : reports ≠ []) :
    FillReports reports
      = some (reports.flatten, (reports.map List.length).sum % 65536) := by
  rw [FillReports, reportsSize_eq_sum_mod reports h]
  rfl

lemma flatten_pair (a b : List Nat) : ([a, b] : List (List Nat)).flatten = a ++ b := by
  rw [List.flatten_cons, List.flatten_cons, List.flatten_nil, List.append_nil]

/-- C4 counterexample: on two reports of 40000 bytes each, `FillReports` writes the
80000-byte concatenation but returns the wrapped `ReportsSize` value 14464, which is
not the number of bytes it wrote. -/
theorem fillReports_return_mismatch_cex :
    FillReports [List.replicate 40000 0, List.replicate 40000 1]
      = some (List.replicate 40000 0 ++ List.replicate 40000 1, 14464)
    ∧ (List.replicate 40000 (0 : Nat) ++ List.replicate 40000 (1 : Nat)).length
      = 80000
    ∧ (14464 : Nat) ≠ 80000 := by
  refine ⟨?_, ?_, by decide⟩
  · rw [fillReports_eq _ (List.cons_ne_nil _ _), flatten_pair, sum_two_replicates]
  · rw [List.length_append, List.length_replicate, List.length_replicate]

/-- C4 amended: for every non-empty report list (`FillReports` is ill-formed on an
empty pack) `FillReports` writes the raw bytes of each report, in list order,
contiguously, and returns `ReportsSize` of the same list — the total byte count
reduced modulo 2^16, equal to the number of bytes written exactly when the total is
at most 65535, as hypothesised here. -/
theorem fillReports_blob_correct (reports : List (List Nat)) (h : reports ≠ [])
    (hsum : (reports.map List.length).sum ≤ 65535) :
    FillReports reports = some (reports.flatten, (reports.map List.length).sum)
    ∧ reports.flatten.length = (reports.map List.length).sum := by
  refine ⟨?_, List.length_flatten reports⟩
  rw [fillReports_eq reports h, Nat.mod_eq_of_lt (by omega)]

theorem fillReports_blob_correct_witness :
    (([[1, 2, 3]] : List (List Nat)) ≠ []
      ∧ (([[1, 2, 3]] : List (List Nat)).map List.length).sum ≤ 65535)
    ∧ (FillReports [[1, 2, 3]]
      = some (([[1, 2, 3]] : List (List Nat)).flatten,
          (([[1, 2, 3]] : List (List Nat)).map List.length).sum)
    ∧ ([[1, 2, 3]] : List (List Nat)).flatten.length
      = (([[1, 2, 3]] : List (List Nat)).map List.length).sum) :=
  ⟨⟨by decide, by decide⟩, fillReports_blob_correct [[1, 2, 3]] (by decide) (by decide)⟩

lemma fillReportsDescriptors_fst (reports : List (List Nat)) :
    (FillReportsDescriptors reports).1
      = (reports.map subDescriptorEntry).flatten := rfl

lemma decode_entries (reports : List (List Nat))
    (hlen : ∀ r ∈ reports, r.length < 65536) :
    decodeSubDescriptorLengths ((reports.map subDescriptorEntry).flatten)
      = reports.map List.length := by
  induction reports with
  | nil => rfl
  | cons r rs ih =>
    have hr : r.length < 65536 := hlen r (List.mem_cons_self r rs)
    have hrest := ih (fun x hx => hlen x (List.mem_cons_of_mem r hx))
    show (r.length % 65536 % 256 + 256 * (r.length % 65536 / 256 % 256))
        :: decodeSubDescriptorLengths ((rs.map subDescriptorEntry).flatten)
      = r.length :: rs.map List.length
    rw [hrest]
    congr 1
    omega

/-- C7 counterexample: with a single report of 65536 bytes, the sub-descriptor
length field wraps to 0, so the decoded length fields sum to 0 while the blob
written by `FillReports` has 65536 bytes. -/
theorem subdesc_blob_sum_cex :
    (decodeSubDescriptorLengths
        (FillReportsDescriptors [List.replicate 65536 0]).1).sum = 0
    ∧ FillReports [List.replicate 65536 0]
      = some (([List.replicate 65536 0] : List (List Nat)).flatten, 0)
    ∧ ([List.replicate 65536 0] : List (List Nat)).flatten.length = 65536
    ∧ (0 : Nat) ≠ 65536 := by
  refine ⟨?_, ?_, ?_, by decide⟩
  · rw [fillReportsDescriptors_fst, List.map_cons, List.map_nil, List.flatten_cons,
      List.flatten_nil, List.append_nil, subDescriptorEntry, List.length_replicate]
    decide
  · rw [fillReports_eq _ (List.cons_ne_nil _ _), List.map_cons, List.map_nil,
      List.length_replicate, List.sum_cons, List.sum_nil]
    norm_num
  · rw [List.flatten_cons, List.flatten_nil, List.append_nil, List.length_replicate]

/-- C7 amended: provided every report is shorter than 65536 bytes (its length fits
the 16-bit field; otherwise the field wraps), the little-endian length fields
written by `FillReportsDescriptors` decode and sum to exactly the total length of
the blob written by `FillReports` over the same list in the same order. -/
theorem subdesc_lengths_sum_eq_blob (reports : List (List Nat)) (h : reports ≠ [])
    (hlen : ∀ r ∈ reports, r.length < 65536) :
    (decodeSubDescriptorLengths (FillReportsDescriptors reports).1).sum
      = reports.flatten.length
    ∧ (FillReports reports).map Prod.fst = some reports.flatten := by
  constructor
  · rw [fillReportsDescriptors_fst, decode_entries reports hlen, List.length_flatten]
  · rw [fillReports_eq reports h]
    rfl

theorem subdesc_lengths_sum_eq_blob_witness :
    (([[1], [2, 2]] : List (List Nat)) ≠ []
      ∧ ∀ r ∈ ([[1], [2, 2]] : List (List Nat)), r.length < 65536)
    ∧ ((decodeSubDescriptorLengths
          (FillReportsDescriptors [[1], [2, 2]]).1).sum
        = ([[1], [2, 2]] : List (List Nat)).flatten.length
    ∧ (FillReports [[1], [2, 2]]).map Prod.fst
        = some (([[1], [2, 2]] : List (List Nat)).flatten)) :=
  ⟨⟨by decide, by decide⟩,
    subdesc_lengths_sum_eq_blob [[1], [2, 2]] (by decide) (by decide)⟩

lemma permuteBy_map {α β : Type} (p : List Nat) (f : α → β) (xs : List α) :
    permuteBy p (xs.map f) = (permuteBy p xs).map f := by
  induction p with
  | nil => rfl
  | cons i q ih =>
    show List.filterMap (fun j => (xs.map f)[j]?) (i :: q)
      = (List.filterMap (fun j => xs[j]?) (i :: q)).map f
    cases hx : xs[i]? with
    | none =>
      have h1 : (xs.map f)[i]? = none := by rw [List.getElem?_map, hx]; rfl
      rw [List.filterMap_cons_none h1, List.filterMap_cons_none hx]
      exact ih
    | some x =>
      have h1 : (xs.map f)[i]? = some (f x) := by rw [List.getElem?_map, hx]; rfl
      rw [List.filterMap_cons_some h1, List.filterMap_cons_some hx, List.map_cons]
      exact congrArg (List.cons (f x)) ih

lemma permuteBy_ne_nil (p : List Nat) (reports : List (List Nat))
    (hp : p.Perm (List.range reports.length)) (h : reports ≠ []) :
    permuteBy p reports ≠ [] := by
  cases p with
  | nil =>
    have h0 : List.range reports.length = [] := hp.symm.eq_nil
    have : reports.length = 0 := by
      by_contra hne
      exact absurd h0 (List.ne_nil_of_length_pos (by rw [List.length_range]; omega))
    exact absurd (List.eq_nil_of_length_eq_zero this) h
  | cons i q =>
    have hi : i < reports.length := by
      have hmem : i ∈ List.range reports.length :=
        hp.mem_iff.mp (List.mem_cons_self i q)
      rw [List.mem_range] at hmem
      exact hmem
    show List.filterMap (fun j => reports[j]?) (i :: q) ≠ []
    rw [List.filterMap_cons, List.getElem?_eq_getElem hi]
    exact List.cons_ne_nil _ _

/-- C8: for every report list and every permutation of it (given as a reindexing
list `p` that is a permutation of `range N`), assembling the permuted list permutes
the sub-descriptor entries and the per-report segments of the blob by that same
permutation: `FillReportsDescriptors` writes the permuted entry list flattened, and
`FillReports` writes the permuted segment list flattened. -/
theorem permute_lockstep (p : List Nat) (reports : List (List Nat))
    (hp : p.Perm (List.range reports.length)) (h : reports ≠ []) :
    (FillReportsDescriptors (permuteBy p reports)).1
      = (permuteBy p (reports.map subDescriptorEntry)).flatten
    ∧ (FillReports (permuteBy p reports)).map Prod.fst
      = some ((permuteBy p reports).flatten) := by
  constructor
  · rw [fillReportsDescriptors_fst, permuteBy_map]
  · rw [fillReports_eq (permuteBy p reports) (permuteBy_ne_nil p reports hp h)]
    rfl

theorem permute_lockstep_witness :
    (([1, 0] : List Nat).Perm (List.range ([[1], [2, 3]] : List (List Nat)).length)
      ∧ ([[1], [2, 3]] : List (List Nat)) ≠ [])
    ∧ ((FillReportsDescriptors (permuteBy [1, 0] [[1], [2, 3]])).1
      = (permuteBy [1, 0] (([[1], [2, 3]] : List (List Nat)).map
          subDescriptorEntry)).flatten
    ∧ (FillReports (permuteBy [1, 0] [[1], [2, 3]])).map Prod.fst
      = some ((permuteBy [1, 0] ([[1], [2, 3]] : List (List Nat))).flatten)) :=
  ⟨⟨by decide, by decide⟩,
    permute_lockstep [1, 0] [[1], [2, 3]] (by decide) (by decide)⟩

/-- C9: for every GetDescriptor/HidReportDescriptor setup packet (over a non-empty
report list whose total fits 16 bits, so that the scratch buffer
`uint8_t temp[ReportsSize()]` really holds the whole blob), `SetupHandler` fills the
scratch buffer via `FillReports` and transmits exactly
`min(requestedLength, actualSize)` bytes of it — the clamped prefix of the blob,
never a resized or longer transfer. -/
theorem setupHandler_clamps (reports : List (List Nat)) (setup : SetupPacket)
    (hreq : setup.Request = GetDescriptorRequest)
    (hval : setup.Value = HidReportDescriptorValue)
    (h : reports ≠ []) (hsum : (reports.map List.length).sum ≤ 65535) :
    SetupHandler reports setup
      = some (reports.flatten.take
          (min setup.Length ((reports.map List.length).sum)))
    ∧ (reports.flatten.take
          (min setup.Length ((reports.map List.length).sum))).length
      = min setup.Length ((reports.map List.length).sum)
    ∧ ReportsSize reports = some ((reports.map List.length).sum) := by
  have hS : ReportsSize reports = some ((reports.map List.length).sum) := by
    rw [reportsSize_eq_sum_mod reports h, Nat.mod_eq_of_lt (by omega)]
  refine ⟨?_, ?_, hS⟩
  · show (if setup.Request = GetDescriptorRequest
          ∧ setup.Value = HidReportDescriptorValue then _ else _) = _
    rw [if_pos ⟨hreq, hval⟩, FillReports, hS, Option.map_some', Option.map_some']
    have hmin : (if setup.Length < (reports.map List.length).sum then setup.Length
        else (reports.map List.length).sum)
        = min setup.Length ((reports.map List.length).sum) := by
      rcases Nat.lt_or_ge setup.Length ((reports.map List.length).sum) with hlt | hge
      · rw [if_pos hlt, Nat.min_eq_left (Nat.le_of_lt hlt)]
      · rw [if_neg (Nat.not_lt.mpr hge), Nat.min_eq_right hge]
    rw [hmin]
  · rw [List.length_take, List.length_flatten]
    omega

theorem setupHandler_clamps_witness :
    ((SetupPacket.mk 6 0x2200 2).Request = GetDescriptorRequest
      ∧ (SetupPacket.mk 6 0x2200 2).Value = HidReportDescriptorValue
      ∧ ([[1, 2, 3]] : List (List Nat)) ≠ []
      ∧ (([[1, 2, 3]] : List (List Nat)).map List.length).sum ≤ 65535)
    ∧ (SetupHandler [[1, 2, 3]] (SetupPacket.mk 6 0x2200 2)
      = some (([[1, 2, 3]] : List (List Nat)).flatten.take
          (min (SetupPacket.mk 6 0x2200 2).Length
            ((([[1, 2, 3]] : List (List Nat)).map List.length).sum)))
    ∧ (([[1, 2, 3]] : List (List Nat)).flatten.take
          (min (SetupPacket.mk 6 0x2200 2).Length
            ((([[1, 2, 3]] : List (List Nat)).map List.length).sum))).length
      = min (SetupPacket.mk 6 0x2200 2).Length
          ((([[1, 2, 3]] : List (List Nat)).map List.length).sum)
    ∧ ReportsSize [[1, 2, 3]]
      = some ((([[1, 2, 3]] : List (List Nat)).map List.length).sum)) :=
  ⟨⟨by decide, by decide, by decide, by decide⟩,
    setupHandler_clamps [[1, 2, 3]] (SetupPacket.mk 6 0x2200 2) (by decide)
      (by decide) (by decide) (by decide)⟩

/-- C5: on reports `[[0x05,0x01,0x09,0x06],[0x06,0x00,0xFF]]` with version `0x0200`
the assembler produces the 12-byte descriptor
`[0x0C,0x21,0x00,0x02,0x00,0x02, 0x22,0x04,0x00, 0x22,0x03,0x00]` and the 7-byte
blob `[0x05,0x01,0x09,0x06,0x06,0x00,0xFF]`. -/
theorem hid_example_eval :
    FillHidDescriptor [[0x05, 0x01, 0x09, 0x06], [0x06, 0x00, 0xFF]] 0x0200
      = ([0x0C, 0x21, 0x00, 0x02, 0x00, 0x02, 0x22, 0x04, 0x00, 0x22, 0x03, 0x00], 12)
    ∧ FillReports [[0x05, 0x01, 0x09, 0x06], [0x06, 0x00, 0xFF]]
      = some ([0x05, 0x01, 0x09, 0x06, 0x06, 0x00, 0xFF], 7) := by
  decide

/-- C6: on the empty report list the header bytes are indeed the 6-byte header with
`bLength = 6` and `bNumDescriptors = 0`, but `ReportsSize` and `FillReports` are
ill-formed (empty unary fold over `+`), so the blob size is not 0 as the claim
requires — it does not exist at all. -/
theorem empty_report_list_eval :
    FillHidDescriptor [] 0x0200 = ([6, 0x21, 0x00, 0x02, 0x00, 0x00], 6)
    ∧ ReportsSize [] = none
    ∧ FillReports [] = none := by
  decide

end Zhele.Usb
